import Mathlib

/-!
# exodus-rsync: the exodus-gw client (`internal/gw/gw.go`)

A shallow embedding of `Client.doJSONRequest`, `Client.haveBlob`,
`Client.uploadBlob` and `Client.EnsureUploaded`.

The remote store, the HTTP transport, the filesystem and the caller's
callbacks are external: they are taken as operations on an explicit world
state `σ`, each returning its Go result together with the next world.
Logging (`logger.F(...)`) is a side effect that no result depends on and is
left out.  The calls made by `EnsureUploaded` are recorded in a trace, each
tagged with the position of the item in the ranged-over slice.
-/

namespace Gw

/-! ## Data model -/

/-- The type `walk.SyncItem`: a local source path and the key of the remote object. -/
structure SyncItem where
  SrcPath : String
  Key : String
deriving DecidableEq, Repr

/-- Go `error` values, as far as this file looks at them.
Here `awsErr code text` is a value whose dynamic type implements `awserr.Error`
(`Code()` is `code`, `Error()` is `text`); `leaf text` is any other error
without an `Unwrap`; `wrapError msg err` is what `fmt.Errorf` builds for a
format with `%w`. -/
inductive GoError where
  | awsErr (code : String) (text : String)
  | leaf (text : String)
  | wrapError (msg : String) (err : GoError)
deriving DecidableEq, Repr

/-- The method `Error() string`. -/
def GoError.Error : GoError → String
  | .awsErr _ text => text
  | .leaf text => text
  | .wrapError msg _ => msg

/-- The method `Unwrap() error`, `none` where the type has none. -/
def GoError.Unwrap : GoError → Option GoError
  | .wrapError _ err => some err
  | _ => none

/-- The type assertion `err.(awserr.Error)` followed by `Code()`:
`some code` when the assertion holds. -/
def GoError.awsCode : GoError → Option String
  | .awsErr code _ => some code
  | _ => none

/-- The call `fmt.Errorf(format, ..., err)` for a format that ends in `%w`:
`text` is the formatted part before the verb. -/
def errorfW (text : String) (err : GoError) : GoError :=
  .wrapError (text ++ err.Error) err

/-- The call `fmt.Errorf(format, ...)` for a format without `%w`. -/
def errorfS (text : String) : GoError :=
  .leaf text

/-- Substring test on messages. -/
def mentions (msg part : String) : Prop :=
  part.data <:+: msg.data

instance (msg part : String) : Decidable (mentions msg part) := by
  unfold mentions; infer_instance

/-- Test that a message starts with a given text. -/
def startsWith (msg front : String) : Prop :=
  front.data <+: msg.data

instance (msg front : String) : Decidable (startsWith msg front) := by
  unfold startsWith; infer_instance

/-- The type `context.Context`: `Err` is what `ctx.Err()` returns, `none` until the
context is cancelled or its deadline passes. -/
structure Context where
  Err : Option GoError
deriving DecidableEq, Repr

/-- An open `*os.File`. -/
structure File where
  fd : Nat
deriving DecidableEq, Repr

/-- The type `conf.Environment`, the two fields the client reads. -/
structure Environment where
  GwURL : String
  GwEnv : String
deriving DecidableEq, Repr

/-- The type `*http.Request` as built by `http.NewRequestWithContext`: its method,
the text of its URL and its header map. -/
structure Request where
  Method : String
  URL : String
  Header : List (String × List String)
deriving DecidableEq, Repr

/-- The map assignment `header[key] = values`. -/
def setHeader (header : List (String × List String)) (key : String) (values : List String) :
    List (String × List String) :=
  (key, values) :: header.filter (fun kv => kv.1 ≠ key)

/-- The type `*http.Response`: status code, status text, the body (of type `β`) and
the text `%v` prints for the body. -/
structure Response (β : Type) where
  StatusCode : Int
  Status : String
  Body : β
  BodyText : String

/-- The HTTP side: building a request from context, method, URL and request
body, `httpClient.Do`, closing a response body and the JSON decoder reading a
response body (of type `β`) into a target of type `τ`. -/
structure HTTP (σ β τ : Type) where
  NewRequestWithContext : Context → String → String → Option String → Except GoError Request
  Do : Request → σ → Except GoError (Response β) × σ
  CloseBody : β → σ → σ
  Decode : β → τ → σ → (Option GoError × τ) × σ

/-- The type `s3.HeadObjectInput`. -/
structure HeadObjectInput where
  Bucket : String
  Key : String
deriving DecidableEq, Repr

/-- The type `s3manager.UploadInput`. -/
structure UploadInput where
  Bucket : String
  Key : String
  Body : File
deriving DecidableEq, Repr

/-- The type `Client`: the environment, `s3.HeadObject` and
`uploader.UploadWithContext`.  `HeadObject` has no context parameter. -/
structure Client (σ : Type) where
  env : Environment
  HeadObject : HeadObjectInput → σ → Option GoError × σ
  UploadWithContext : Context → UploadInput → σ → Option GoError × σ

/-- The filesystem: `os.Open` and `(*os.File).Close`. -/
structure OS (σ : Type) where
  Open : String → σ → Except GoError File × σ
  Close : File → σ → σ

/-! ## `doJSONRequest` -/

/-- What `doJSONRequest` did to the response body. -/
inductive BodyEvent where
  | decode
  | close
deriving DecidableEq, Repr

/-- Result of `doJSONRequest`: the returned error, the target, the world and
the operations performed on the response body. -/
structure JSONOutcome (σ τ : Type) where
  err : Option GoError
  target : τ
  world : σ
  body : List BodyEvent

/-- The method `Client.doJSONRequest`. -/
def doJSONRequest {σ β τ : Type} (env : Environment) (h : HTTP σ β τ) (ctx : Context)
    (method url : String) (body : Option String) (target : τ) (w : σ) : JSONOutcome σ τ :=
  let fullURL := env.GwURL ++ url
  match h.NewRequestWithContext ctx method fullURL body with
  | .error err =>
      ⟨some (errorfW ("preparing request to " ++ fullURL ++ ": ") err), target, w, []⟩
  | .ok req0 =>
      let req : Request := ⟨req0.Method, req0.URL,
        setHeader (setHeader req0.Header "Accept" ["application/json"])
          "Content-Type" ["application/json"]⟩
      match h.Do req w with
      | (.error err, w1) =>
          ⟨some (errorfW (req.Method ++ " " ++ req.URL ++ ": ") err), target, w1, []⟩
      | (.ok resp, w1) =>
          if resp.StatusCode < 200 ∨ resp.StatusCode > 299 then
            ⟨some (errorfS (req.Method ++ " " ++ req.URL ++ ": " ++ resp.Status ++ " "
                ++ resp.BodyText)), target, h.CloseBody resp.Body w1, [.close]⟩
          else
            match h.Decode resp.Body target w1 with
            | ((some err, t1), w2) =>
                ⟨some (errorfW (req.Method ++ " " ++ req.URL ++ ": ") err), t1,
                  h.CloseBody resp.Body w2, [.decode, .close]⟩
            | ((none, t1), w2) =>
                ⟨none, t1, h.CloseBody resp.Body w2, [.decode, .close]⟩

/-! ## `haveBlob` and `uploadBlob` -/

/-- The method `Client.haveBlob`.  The context is used for the logger only. -/
def haveBlob {σ : Type} (c : Client σ) (_ctx : Context) (item : SyncItem) (w : σ) :
    (Bool × Option GoError) × σ :=
  match c.HeadObject ⟨c.env.GwEnv, item.Key⟩ w with
  | (none, w1) => ((true, none), w1)
  | (some err, w1) =>
      if err.awsCode = some "NotFound" then
        ((false, none), w1)
      else
        ((false, some err), w1)

/-- The method `Client.uploadBlob`. -/
def uploadBlob {σ : Type} (os : OS σ) (c : Client σ) (ctx : Context) (item : SyncItem)
    (w : σ) : Option GoError × σ :=
  match os.Open item.SrcPath w with
  | (.error err, w1) =>
      (some (errorfW ("upload (open) " ++ item.SrcPath ++ ": ") err), w1)
  | (.ok file, w1) =>
      match c.UploadWithContext ctx ⟨c.env.GwEnv, item.Key, file⟩ w1 with
      | (some err, w2) =>
          (some (errorfW ("upload (s3) " ++ item.SrcPath ++ ": ") err), os.Close file w2)
      | (none, w2) => (none, os.Close file w2)

/-! ## `EnsureUploaded` -/

/-- The calls `EnsureUploaded` makes for an item. -/
inductive Call where
  | haveBlob
  | uploadBlob
  | onPresent
  | onUploaded
deriving DecidableEq, Repr

/-- One call made by `EnsureUploaded`: the position of the item in the
slice, the item and the function called. -/
structure Event where
  idx : Nat
  item : SyncItem
  call : Call
deriving DecidableEq, Repr

/-- A caller's callback `func(walk.SyncItem) error`. -/
abbrev Callback (σ : Type) := SyncItem → σ → Option GoError × σ

/-- Result of `EnsureUploaded`: the returned error, the world and the calls
made, in order. -/
structure Outcome (σ : Type) where
  err : Option GoError
  world : σ
  trace : List Event

/-- Puts the calls of the current iteration before those of the rest of the
loop. -/
def Outcome.after {σ : Type} (evs : List Event) (o : Outcome σ) : Outcome σ :=
  ⟨o.err, o.world, evs ++ o.trace⟩

/-- The loop of `Client.EnsureUploaded` from position `i` of the slice on. -/
def ensureLoop {σ : Type} (os : OS σ) (c : Client σ) (ctx : Context)
    (onUploaded onPresent : Callback σ) : Nat → List SyncItem → σ → Outcome σ
  | _, [], w => ⟨none, w, []⟩
  | i, item :: rest, w =>
      match haveBlob c ctx item w with
      | ((_, some err), w1) =>
          ⟨some (errorfW ("checking for presence of " ++ item.Key ++ ": ") err), w1,
            [⟨i, item, .haveBlob⟩]⟩
      | ((true, none), w1) =>
          match onPresent item w1 with
          | (some err, w2) => ⟨some err, w2, [⟨i, item, .haveBlob⟩, ⟨i, item, .onPresent⟩]⟩
          | (none, w2) =>
              (ensureLoop os c ctx onUploaded onPresent (i + 1) rest w2).after
                [⟨i, item, .haveBlob⟩, ⟨i, item, .onPresent⟩]
      | ((false, none), w1) =>
          match uploadBlob os c ctx item w1 with
          | (some err, w2) => ⟨some err, w2, [⟨i, item, .haveBlob⟩, ⟨i, item, .uploadBlob⟩]⟩
          | (none, w2) =>
              match onUploaded item w2 with
              | (some err, w3) =>
                  ⟨some err, w3,
                    [⟨i, item, .haveBlob⟩, ⟨i, item, .uploadBlob⟩, ⟨i, item, .onUploaded⟩]⟩
              | (none, w3) =>
                  (ensureLoop os c ctx onUploaded onPresent (i + 1) rest w3).after
                    [⟨i, item, .haveBlob⟩, ⟨i, item, .uploadBlob⟩, ⟨i, item, .onUploaded⟩]

/-- The method `Client.EnsureUploaded`. -/
def EnsureUploaded {σ : Type} (os : OS σ) (c : Client σ) (ctx : Context)
    (items : List SyncItem) (onUploaded onPresent : Callback σ) (w : σ) : Outcome σ :=
  ensureLoop os c ctx onUploaded onPresent 0 items w

/-! ## Reading a trace -/

/-- The calls made for the item at position `i`, in order. -/
def callsFor (tr : List Event) (i : Nat) : List Event :=
  tr.filter (fun e => e.idx = i)

/-- How often `call` was made for the item at position `i`. -/
def callCount (tr : List Event) (i : Nat) (call : Call) : Nat :=
  (tr.filter (fun e => e.idx = i ∧ e.call = call)).length

/-- The trace of a run that finds every item present: a presence check and
then `onPresent`, item after item, from position `i` on. -/
def presentTrace : Nat → List SyncItem → List Event
  | _, [] => []
  | i, item :: rest =>
      ⟨i, item, .haveBlob⟩ :: ⟨i, item, .onPresent⟩ :: presentTrace (i + 1) rest

/-- The world left by a run that finds every item present: item after item,
the presence check and then one call of `onPresent`, each on the world the
call before it left. -/
def presentWorld {σ : Type} (c : Client σ) (ctx : Context) (onPresent : Callback σ) :
    List SyncItem → σ → σ
  | [], w => w
  | item :: rest, w =>
      presentWorld c ctx onPresent rest (onPresent item (haveBlob c ctx item w).2).2

/-! ## A store model

`present w key` says that the world `w` has an object under `key` in the
bucket of the client. -/

/-- The store answers the existence query with success exactly for the keys
that are present, a successful upload makes its key present, and no
operation of the store or the filesystem removes a key. -/
structure StoreModel {σ : Type} (os : OS σ) (c : Client σ) (present : σ → String → Prop) :
    Prop where
  head_ok_iff : ∀ key w, (c.HeadObject ⟨c.env.GwEnv, key⟩ w).1 = none ↔ present w key
  head_keeps : ∀ inp w key, present w key → present (c.HeadObject inp w).2 key
  upload_adds : ∀ ctx key body w, (c.UploadWithContext ctx ⟨c.env.GwEnv, key, body⟩ w).1 = none →
    present (c.UploadWithContext ctx ⟨c.env.GwEnv, key, body⟩ w).2 key
  upload_keeps : ∀ ctx inp w key, present w key → present (c.UploadWithContext ctx inp w).2 key
  open_keeps : ∀ path w key, present w key → present (os.Open path w).2 key
  close_keeps : ∀ file w key, present w key → present (os.Close file w) key

/-- A callback that removes no key. -/
def Keeps {σ : Type} (present : σ → String → Prop) (cb : Callback σ) : Prop :=
  ∀ item w key, present w key → present (cb item w).2 key

/-! ## Concrete worlds

An in-memory store whose world is the list of keys present, used to run the
definitions on concrete inputs. -/

/-- A client over the in-memory store: the existence query fails with
`NotFound` for a missing key, the upload returns the error of a cancelled
context and otherwise adds the key. -/
def memClient : Client (List String) where
  env := ⟨"https://gw.example.com", "test"⟩
  HeadObject inp w :=
    if inp.Key ∈ w then (none, w) else (some (.awsErr "NotFound" "NotFound: Not Found"), w)
  UploadWithContext ctx inp w :=
    match ctx.Err with
    | some err => (some err, w)
    | none => (none, inp.Key :: w)

/-- A client whose existence query fails with a connection error and whose
upload fails with a server error. -/
def brokenClient : Client (List String) where
  env := ⟨"https://gw.example.com", "test"⟩
  HeadObject _ w := (some (.leaf "connection reset by peer"), w)
  UploadWithContext _ _ w := (some (.awsErr "InternalError" "InternalError: try again"), w)

/-- A filesystem in which every path but `/missing` can be opened. -/
def memOS : OS (List String) where
  Open path w :=
    if path = "/missing" then
      (.error (.leaf "open /missing: no such file or directory"), w)
    else (.ok ⟨3⟩, w)
  Close _ w := w

/-- A callback that succeeds. -/
def okCallback : Callback (List String) := fun _ w => (none, w)

/-- A callback that fails. -/
def failCallback : Callback (List String) := fun _ w => (some (.leaf "callback failed"), w)

/-- A context that is not cancelled. -/
def liveCtx : Context := ⟨none⟩

/-- A cancelled context. -/
def cancelledCtx : Context := ⟨some (.leaf "context canceled")⟩

/-- A world that keeps a record of what was done to it: the keys in the
store, the keys asked for by an existence query, the paths opened, the
uploads performed, the files closed, and the items `onUploaded` and
`onPresent` were called with, each in order. -/
structure Ledger where
  store : List String
  heads : List String
  opened : List String
  uploaded : List UploadInput
  closed : List File
  onUploadedCalls : List SyncItem
  onPresentCalls : List SyncItem
deriving DecidableEq, Repr

/-- A client over the ledger: every existence query and every upload that
is performed is written down. -/
def ledgerClient : Client Ledger where
  env := ⟨"https://gw.example.com", "test"⟩
  HeadObject inp w :=
    if inp.Key ∈ w.store then (none, { w with heads := w.heads ++ [inp.Key] })
    else (some (.awsErr "NotFound" "NotFound: Not Found"),
      { w with heads := w.heads ++ [inp.Key] })
  UploadWithContext ctx inp w :=
    match ctx.Err with
    | some err => (some err, w)
    | none => (none, { w with store := w.store ++ [inp.Key], uploaded := w.uploaded ++ [inp] })

/-- A filesystem over the ledger: every path opened and every file closed is
written down; every path but `/missing` can be opened. -/
def ledgerOS : OS Ledger where
  Open path w :=
    if path = "/missing" then
      (.error (.leaf "open /missing: no such file or directory"),
        { w with opened := w.opened ++ [path] })
    else (.ok ⟨3⟩, { w with opened := w.opened ++ [path] })
  Close file w := { w with closed := w.closed ++ [file] }

/-- An `onUploaded` that writes its item down and succeeds. -/
def ledgerOnUploaded : Callback Ledger :=
  fun item w => (none, { w with onUploadedCalls := w.onUploadedCalls ++ [item] })

/-- An `onPresent` that writes its item down and succeeds. -/
def ledgerOnPresent : Callback Ledger :=
  fun item w => (none, { w with onPresentCalls := w.onPresentCalls ++ [item] })

/-- An `onPresent` that writes its item down and fails. -/
def ledgerOnPresentFail : Callback Ledger :=
  fun item w =>
    (some (.leaf "callback failed"), { w with onPresentCalls := w.onPresentCalls ++ [item] })

/-- A ledger whose store holds `k1` and on which nothing was done yet. -/
def ledgerStart : Ledger := ⟨["k1"], [], [], [], [], [], []⟩

/-- An HTTP side that answers every request with the given status and whose
decoder stores the body in the target, failing on an empty body. -/
def memHTTP (code : Int) (status : String) : HTTP Unit String String where
  NewRequestWithContext _ method url _ :=
    .ok ⟨if method = "" then "GET" else method, url, []⟩
  Do _ w := (.ok ⟨code, status, "\x7b\x7d", "0xc000010000"⟩, w)
  CloseBody _ w := w
  Decode body target w :=
    if body = "" then ((some (.leaf "EOF"), target), w) else ((none, body), w)

/-- An HTTP side like `memHTTP` whose response body is empty. -/
def emptyHTTP (code : Int) (status : String) : HTTP Unit String String where
  NewRequestWithContext _ method url _ :=
    .ok ⟨if method = "" then "GET" else method, url, []⟩
  Do _ w := (.ok ⟨code, status, "", "0xc000010000"⟩, w)
  CloseBody _ w := w
  Decode body target w :=
    if body = "" then ((some (.leaf "EOF"), target), w) else ((none, body), w)

/-! ## The loop: decomposition lemmas -/

section Loop

variable {σ : Type} (os : OS σ) (c : Client σ) (ctx : Context)
  (onUploaded onPresent : Callback σ)

/-- Every call recorded by the loop started at position `i` carries a
position of the part of the slice it ranges over. -/
theorem ensureLoop_idx_bounds (items : List SyncItem) :
    ∀ (i : Nat) (w : σ), ∀ e ∈ (ensureLoop os c ctx onUploaded onPresent i items w).trace,
      i ≤ e.idx ∧ e.idx < i + items.length := by
  induction items with
  | nil => intro i w e he; simp [ensureLoop] at he
  | cons item rest ih =>
    intro i w e he
    unfold ensureLoop at he
    split at he
    · simp at he; subst he; simp
    · split at he
      · simp at he; rcases he with he | he <;> subst he <;> simp
      · simp [Outcome.after] at he
        rcases he with he | he | he
        · subst he; simp
        · subst he; simp
        · have := ih (i + 1) _ e he
          simp; omega
    · split at he
      · simp at he; rcases he with he | he <;> subst he <;> simp
      · split at he
        · simp at he; rcases he with he | he | he <;> subst he <;> simp
        · simp [Outcome.after] at he
          rcases he with he | he | he | he
          · subst he; simp
          · subst he; simp
          · subst he; simp
          · have := ih (i + 1) _ e he
            simp; omega

/-- A run over `pre ++ rest` whose part over `pre` returns no error goes on
with `rest` from the world that part left. -/
theorem ensureLoop_append_ok (pre rest : List SyncItem) :
    ∀ (i : Nat) (w : σ), (ensureLoop os c ctx onUploaded onPresent i pre w).err = none →
      ensureLoop os c ctx onUploaded onPresent i (pre ++ rest) w =
        (ensureLoop os c ctx onUploaded onPresent (i + pre.length) rest
          (ensureLoop os c ctx onUploaded onPresent i pre w).world).after
          (ensureLoop os c ctx onUploaded onPresent i pre w).trace := by
  induction pre with
  | nil => intro i w _; simp [ensureLoop, Outcome.after]
  | cons item pre ih =>
    intro i w h
    rcases hH : haveBlob c ctx item w with ⟨⟨b, e⟩, w1⟩
    rcases hP : onPresent item w1 with ⟨eP, w2⟩
    rcases hU : uploadBlob os c ctx item w1 with ⟨eU, w3⟩
    rcases hC : onUploaded item w3 with ⟨eC, w4⟩
    cases e <;> cases b <;> cases eP <;> cases eU <;> cases eC <;>
      simp [ensureLoop, hH, hP, hU, hC, Outcome.after] at h ⊢ <;>
      simp [ih (i + 1) _ h, Outcome.after, Nat.add_assoc, Nat.add_comm 1]

/-- A run over `pre ++ rest` whose part over `pre` returns an error is that
part: nothing of `rest` is looked at. -/
theorem ensureLoop_append_err (pre rest : List SyncItem) :
    ∀ (i : Nat) (w : σ) (e : GoError),
      (ensureLoop os c ctx onUploaded onPresent i pre w).err = some e →
      ensureLoop os c ctx onUploaded onPresent i (pre ++ rest) w =
        ensureLoop os c ctx onUploaded onPresent i pre w := by
  induction pre with
  | nil => intro i w e h; simp [ensureLoop] at h
  | cons item pre ih =>
    intro i w e0 h
    rcases hH : haveBlob c ctx item w with ⟨⟨b, e⟩, w1⟩
    rcases hP : onPresent item w1 with ⟨eP, w2⟩
    rcases hU : uploadBlob os c ctx item w1 with ⟨eU, w3⟩
    rcases hC : onUploaded item w3 with ⟨eC, w4⟩
    cases e <;> cases b <;> cases eP <;> cases eU <;> cases eC <;>
      simp [ensureLoop, hH, hP, hU, hC, Outcome.after] at h ⊢ <;>
      simp [ih (i + 1) _ e0 h]

theorem callCount_eq (tr : List Event) (i : Nat) (call : Call) :
    callCount tr i call = ((callsFor tr i).filter (fun e => e.call = call)).length := by
  simp [callCount, callsFor, List.filter_filter, Bool.and_comm]

theorem callsFor_append (s t : List Event) (i : Nat) :
    callsFor (s ++ t) i = callsFor s i ++ callsFor t i := by
  simp [callsFor]

theorem callsFor_eq_nil_of_lt (t : List Event) (i : Nat) (h : ∀ e ∈ t, e.idx < i) :
    callsFor t i = [] := by
  simp only [callsFor, List.filter_eq_nil_iff]
  intro e he
  have := h e he
  simp; omega

theorem callsFor_eq_nil_of_gt (t : List Event) (i : Nat) (h : ∀ e ∈ t, i < e.idx) :
    callsFor t i = [] := by
  simp only [callsFor, List.filter_eq_nil_iff]
  intro e he
  have := h e he
  simp; omega

/-- The part of a run over the first `n` items makes no call for position `n`. -/
theorem callsFor_loop_before (items : List SyncItem) (w : σ) :
    callsFor (EnsureUploaded os c ctx items onUploaded onPresent w).trace items.length = [] := by
  apply callsFor_eq_nil_of_lt
  intro e he
  have := (ensureLoop_idx_bounds os c ctx onUploaded onPresent items 0 w e he).2
  omega

/-- The rest of the loop makes no call for the position before it. -/
theorem callsFor_loop_after (items : List SyncItem) (i : Nat) (w : σ) :
    callsFor (ensureLoop os c ctx onUploaded onPresent (i + 1) items w).trace i = [] := by
  apply callsFor_eq_nil_of_gt
  intro e he
  have := (ensureLoop_idx_bounds os c ctx onUploaded onPresent items (i + 1) w e he).1
  omega

/-- The calls before position `n` all carry a position below `n`. -/
theorem EnsureUploaded_idx_lt (items : List SyncItem) (w : σ) :
    ∀ e ∈ (EnsureUploaded os c ctx items onUploaded onPresent w).trace,
      e.idx < items.length := by
  intro e he
  have := (ensureLoop_idx_bounds os c ctx onUploaded onPresent items 0 w e he).2
  omega

/-- A run reaches the item after `pre` when its part over `pre` returns no
error; it then goes on from the world that part left. -/
theorem EnsureUploaded_reach (pre post : List SyncItem) (w : σ)
    (hreach : (EnsureUploaded os c ctx pre onUploaded onPresent w).err = none) :
    EnsureUploaded os c ctx (pre ++ post) onUploaded onPresent w =
      (ensureLoop os c ctx onUploaded onPresent pre.length post
        (EnsureUploaded os c ctx pre onUploaded onPresent w).world).after
        (EnsureUploaded os c ctx pre onUploaded onPresent w).trace := by
  unfold EnsureUploaded at hreach ⊢
  have := ensureLoop_append_ok os c ctx onUploaded onPresent pre post 0 w hreach
  simpa using this

end Loop

/-! ## `EnsureUploaded`: what is called for an item -/

section Orchestrator

variable {σ : Type} (os : OS σ) (c : Client σ) (ctx : Context)
  (onUploaded onPresent : Callback σ)

/-- C1: in a run of `EnsureUploaded` over `pre ++ item :: post` that reaches
`item` (the part over `pre` returns no error), if `haveBlob` reports the item
absent and `uploadBlob` and `onUploaded` succeed for it, the calls made for
the item are exactly the presence check, then `uploadBlob`, then `onUploaded`:
`uploadBlob` once, `onUploaded` once, `onPresent` never.  The calls are the
real ones: `uploadBlob` runs on the world `w1` the presence check left,
`onUploaded` on the world `w2` `uploadBlob` left, and the world `w3` that
`onUploaded` left is the world after the iteration (the run over
`pre ++ [item]` ends in it with no error) and the world the rest of the
loop goes on from. -/
theorem absent_item_uploaded_once (pre post : List SyncItem) (item : SyncItem)
    (w w1 w2 w3 : σ)
    (hreach : (EnsureUploaded os c ctx pre onUploaded onPresent w).err = none)
    (habsent : haveBlob c ctx item (EnsureUploaded os c ctx pre onUploaded onPresent w).world
      = ((false, none), w1))
    (hupload : uploadBlob os c ctx item w1 = (none, w2))
    (hcb : onUploaded item w2 = (none, w3)) :
    callsFor (EnsureUploaded os c ctx (pre ++ item :: post) onUploaded onPresent w).trace
        pre.length
      = [⟨pre.length, item, .haveBlob⟩, ⟨pre.length, item, .uploadBlob⟩,
          ⟨pre.length, item, .onUploaded⟩]
    ∧ callCount (EnsureUploaded os c ctx (pre ++ item :: post) onUploaded onPresent w).trace
        pre.length .uploadBlob = 1
    ∧ callCount (EnsureUploaded os c ctx (pre ++ item :: post) onUploaded onPresent w).trace
        pre.length .onUploaded = 1
    ∧ callCount (EnsureUploaded os c ctx (pre ++ item :: post) onUploaded onPresent w).trace
        pre.length .onPresent = 0
    ∧ (EnsureUploaded os c ctx (pre ++ [item]) onUploaded onPresent w).world = w3
    ∧ (EnsureUploaded os c ctx (pre ++ [item]) onUploaded onPresent w).err = none
    ∧ EnsureUploaded os c ctx (pre ++ item :: post) onUploaded onPresent w
        = (ensureLoop os c ctx onUploaded onPresent (pre.length + 1) post w3).after
            ((EnsureUploaded os c ctx pre onUploaded onPresent w).trace
              ++ [⟨pre.length, item, .haveBlob⟩, ⟨pre.length, item, .uploadBlob⟩,
                ⟨pre.length, item, .onUploaded⟩]) := by
  have hstep : ∀ rest : List SyncItem,
      EnsureUploaded os c ctx (pre ++ item :: rest) onUploaded onPresent w
        = (ensureLoop os c ctx onUploaded onPresent (pre.length + 1) rest w3).after
            ((EnsureUploaded os c ctx pre onUploaded onPresent w).trace
              ++ [⟨pre.length, item, .haveBlob⟩, ⟨pre.length, item, .uploadBlob⟩,
                ⟨pre.length, item, .onUploaded⟩]) := by
    intro rest
    rw [EnsureUploaded_reach os c ctx onUploaded onPresent pre (item :: rest) w hreach]
    simp only [ensureLoop, habsent, hupload, hcb, Outcome.after, List.append_assoc]
  have key : callsFor
      (EnsureUploaded os c ctx (pre ++ item :: post) onUploaded onPresent w).trace pre.length
      = [⟨pre.length, item, .haveBlob⟩, ⟨pre.length, item, .uploadBlob⟩,
          ⟨pre.length, item, .onUploaded⟩] := by
    rw [hstep post]
    simp only [Outcome.after, callsFor_append]
    rw [callsFor_loop_after, callsFor_loop_before]
    simp [callsFor]
  refine ⟨key, ?_, ?_, ?_, ?_, ?_, hstep post⟩
  · rw [callCount_eq, key]; simp [List.filter]
  · rw [callCount_eq, key]; simp [List.filter]
  · rw [callCount_eq, key]; simp [List.filter]
  · rw [hstep []]; simp [ensureLoop, Outcome.after]
  · rw [hstep []]; simp [ensureLoop, Outcome.after]

/-- C2: in a run of `EnsureUploaded` over `pre ++ item :: post` that reaches
`item`, if `haveBlob` reports the item present, the calls made for the item
are exactly the presence check and then `onPresent`: `onPresent` once,
`uploadBlob` and `onUploaded` never.  The call is the real one: `onPresent`
runs on the world `w1` the presence check left, the run over `pre ++ [item]`
ends in the world `onPresent` left and returns what `onPresent` returned, and
when `onPresent` succeeds the rest of the loop goes on from that world. -/
theorem present_item_onPresent_once (pre post : List SyncItem) (item : SyncItem)
    (w w1 : σ)
    (hreach : (EnsureUploaded os c ctx pre onUploaded onPresent w).err = none)
    (hpresent : haveBlob c ctx item (EnsureUploaded os c ctx pre onUploaded onPresent w).world
      = ((true, none), w1)) :
    callsFor (EnsureUploaded os c ctx (pre ++ item :: post) onUploaded onPresent w).trace
        pre.length
      = [⟨pre.length, item, .haveBlob⟩, ⟨pre.length, item, .onPresent⟩]
    ∧ callCount (EnsureUploaded os c ctx (pre ++ item :: post) onUploaded onPresent w).trace
        pre.length .onPresent = 1
    ∧ callCount (EnsureUploaded os c ctx (pre ++ item :: post) onUploaded onPresent w).trace
        pre.length .uploadBlob = 0
    ∧ callCount (EnsureUploaded os c ctx (pre ++ item :: post) onUploaded onPresent w).trace
        pre.length .onUploaded = 0
    ∧ (EnsureUploaded os c ctx (pre ++ [item]) onUploaded onPresent w).world
        = (onPresent item w1).2
    ∧ (EnsureUploaded os c ctx (pre ++ [item]) onUploaded onPresent w).err
        = (onPresent item w1).1
    ∧ ((onPresent item w1).1 = none →
        EnsureUploaded os c ctx (pre ++ item :: post) onUploaded onPresent w
          = (ensureLoop os c ctx onUploaded onPresent (pre.length + 1) post
              (onPresent item w1).2).after
              ((EnsureUploaded os c ctx pre onUploaded onPresent w).trace
                ++ [⟨pre.length, item, .haveBlob⟩, ⟨pre.length, item, .onPresent⟩]))
    ∧ (∀ e, (onPresent item w1).1 = some e →
        EnsureUploaded os c ctx (pre ++ item :: post) onUploaded onPresent w
          = ⟨some e, (onPresent item w1).2,
              (EnsureUploaded os c ctx pre onUploaded onPresent w).trace
                ++ [⟨pre.length, item, .haveBlob⟩, ⟨pre.length, item, .onPresent⟩]⟩) := by
  rcases hP : onPresent item w1 with ⟨eP, w2⟩
  have hstep : ∀ rest : List SyncItem,
      EnsureUploaded os c ctx (pre ++ item :: rest) onUploaded onPresent w
        = match eP with
          | some e => ⟨some e, w2, (EnsureUploaded os c ctx pre onUploaded onPresent w).trace
              ++ [⟨pre.length, item, .haveBlob⟩, ⟨pre.length, item, .onPresent⟩]⟩
          | none => (ensureLoop os c ctx onUploaded onPresent (pre.length + 1) rest w2).after
              ((EnsureUploaded os c ctx pre onUploaded onPresent w).trace
                ++ [⟨pre.length, item, .haveBlob⟩, ⟨pre.length, item, .onPresent⟩]) := by
    intro rest
    rw [EnsureUploaded_reach os c ctx onUploaded onPresent pre (item :: rest) w hreach]
    cases eP <;> simp only [ensureLoop, hpresent, hP, Outcome.after, List.append_assoc]
  have key : callsFor
      (EnsureUploaded os c ctx (pre ++ item :: post) onUploaded onPresent w).trace pre.length
      = [⟨pre.length, item, .haveBlob⟩, ⟨pre.length, item, .onPresent⟩] := by
    rw [hstep post]
    cases eP
    · simp only [Outcome.after, callsFor_append]
      rw [callsFor_loop_after, callsFor_loop_before]
      simp [callsFor]
    · simp only [callsFor_append]
      rw [callsFor_loop_before]
      simp [callsFor]
  refine ⟨key, ?_, ?_, ?_, ?_, ?_, ?_, ?_⟩
  · rw [callCount_eq, key]; simp [List.filter]
  · rw [callCount_eq, key]; simp [List.filter]
  · rw [callCount_eq, key]; simp [List.filter]
  · rw [hstep []]; cases eP <;> simp [ensureLoop, Outcome.after]
  · rw [hstep []]; cases eP <;> simp [ensureLoop, Outcome.after]
  · intro h
    simp only at h
    subst h
    exact hstep post
  · intro e h
    simp only at h
    subst h
    exact hstep post

/-- C3: in a run of `EnsureUploaded` over `pre ++ item :: post` that reaches
`item`, if `haveBlob` returns the error `e` for the item, the run returns the
error built by `fmt.Errorf("checking for presence of %s: %w", item.Key, e)`:
it unwraps to `e` and its message contains the key.  The only call made for
the item is the presence check, no call is made for a later position, and the
world is left as the presence check left it. -/
theorem presence_error_stops_batch (pre post : List SyncItem) (item : SyncItem)
    (w w1 : σ) (b : Bool) (e : GoError)
    (hreach : (EnsureUploaded os c ctx pre onUploaded onPresent w).err = none)
    (hfail : haveBlob c ctx item (EnsureUploaded os c ctx pre onUploaded onPresent w).world
      = ((b, some e), w1)) :
    (∃ err, (EnsureUploaded os c ctx (pre ++ item :: post) onUploaded onPresent w).err = some err
        ∧ err = errorfW ("checking for presence of " ++ item.Key ++ ": ") e
        ∧ err.Unwrap = some e
        ∧ err.Error = "checking for presence of " ++ item.Key ++ ": " ++ e.Error
        ∧ mentions err.Error item.Key)
    ∧ callsFor (EnsureUploaded os c ctx (pre ++ item :: post) onUploaded onPresent w).trace
        pre.length = [⟨pre.length, item, .haveBlob⟩]
    ∧ (∀ ev ∈ (EnsureUploaded os c ctx (pre ++ item :: post) onUploaded onPresent w).trace,
        ev.idx ≤ pre.length)
    ∧ (EnsureUploaded os c ctx (pre ++ item :: post) onUploaded onPresent w).trace
        = (EnsureUploaded os c ctx pre onUploaded onPresent w).trace
          ++ [⟨pre.length, item, .haveBlob⟩]
    ∧ (EnsureUploaded os c ctx (pre ++ item :: post) onUploaded onPresent w).world = w1 := by
  have hout : EnsureUploaded os c ctx (pre ++ item :: post) onUploaded onPresent w
      = ⟨some (errorfW ("checking for presence of " ++ item.Key ++ ": ") e), w1,
          (EnsureUploaded os c ctx pre onUploaded onPresent w).trace
            ++ [⟨pre.length, item, .haveBlob⟩]⟩ := by
    rw [EnsureUploaded_reach os c ctx onUploaded onPresent pre (item :: post) w hreach]
    simp only [ensureLoop, hfail, Outcome.after]
  rw [hout]
  refine ⟨⟨_, rfl, rfl, rfl, rfl, ?_⟩, ?_, ?_, rfl, rfl⟩
  · refine ⟨"checking for presence of ".data, (": " ++ e.Error).data, ?_⟩
    simp [errorfW, GoError.Error]
  · rw [callsFor_append, callsFor_loop_before]
    simp [callsFor]
  · intro ev hev
    rcases List.mem_append.1 hev with h | h
    · exact Nat.le_of_lt (EnsureUploaded_idx_lt os c ctx onUploaded onPresent pre w ev h)
    · simp at h; subst h; simp

/-- C4: in a run of `EnsureUploaded` over `pre ++ item :: post` that reaches
`item`, if `onPresent` (item present), `uploadBlob` (item absent) or
`onUploaded` (item absent and uploaded) returns the error `e` for the item,
the run returns `e` itself, no call is made for a later position and the
world is left as the failing call left it; when `uploadBlob` is the failing
call, the calls made for the item are the presence check and `uploadBlob`
only. -/
theorem step_error_returned_unchanged (pre post : List SyncItem) (item : SyncItem) (w : σ)
    (hreach : (EnsureUploaded os c ctx pre onUploaded onPresent w).err = none) :
    (∀ (w1 w2 : σ) (e : GoError),
      haveBlob c ctx item (EnsureUploaded os c ctx pre onUploaded onPresent w).world
        = ((true, none), w1) →
      onPresent item w1 = (some e, w2) →
      (EnsureUploaded os c ctx (pre ++ item :: post) onUploaded onPresent w).err = some e
      ∧ (EnsureUploaded os c ctx (pre ++ item :: post) onUploaded onPresent w).world = w2
      ∧ ∀ ev ∈ (EnsureUploaded os c ctx (pre ++ item :: post) onUploaded onPresent w).trace,
          ev.idx ≤ pre.length)
    ∧ (∀ (w1 w2 : σ) (e : GoError),
      haveBlob c ctx item (EnsureUploaded os c ctx pre onUploaded onPresent w).world
        = ((false, none), w1) →
      uploadBlob os c ctx item w1 = (some e, w2) →
      (EnsureUploaded os c ctx (pre ++ item :: post) onUploaded onPresent w).err = some e
      ∧ (EnsureUploaded os c ctx (pre ++ item :: post) onUploaded onPresent w).world = w2
      ∧ (∀ ev ∈ (EnsureUploaded os c ctx (pre ++ item :: post) onUploaded onPresent w).trace,
          ev.idx ≤ pre.length)
      ∧ callsFor (EnsureUploaded os c ctx (pre ++ item :: post) onUploaded onPresent w).trace
          pre.length = [⟨pre.length, item, .haveBlob⟩, ⟨pre.length, item, .uploadBlob⟩])
    ∧ (∀ (w1 w2 w3 : σ) (e : GoError),
      haveBlob c ctx item (EnsureUploaded os c ctx pre onUploaded onPresent w).world
        = ((false, none), w1) →
      uploadBlob os c ctx item w1 = (none, w2) →
      onUploaded item w2 = (some e, w3) →
      (EnsureUploaded os c ctx (pre ++ item :: post) onUploaded onPresent w).err = some e
      ∧ (EnsureUploaded os c ctx (pre ++ item :: post) onUploaded onPresent w).world = w3
      ∧ ∀ ev ∈ (EnsureUploaded os c ctx (pre ++ item :: post) onUploaded onPresent w).trace,
          ev.idx ≤ pre.length) := by
  have hlt := EnsureUploaded_idx_lt os c ctx onUploaded onPresent pre w
  refine ⟨?_, ?_, ?_⟩
  · intro w1 w2 e hH hP
    have hout : EnsureUploaded os c ctx (pre ++ item :: post) onUploaded onPresent w
        = ⟨some e, w2, (EnsureUploaded os c ctx pre onUploaded onPresent w).trace
            ++ [⟨pre.length, item, .haveBlob⟩, ⟨pre.length, item, .onPresent⟩]⟩ := by
      rw [EnsureUploaded_reach os c ctx onUploaded onPresent pre (item :: post) w hreach]
      simp only [ensureLoop, hH, hP, Outcome.after]
    rw [hout]
    refine ⟨rfl, rfl, ?_⟩
    intro ev hev
    rcases List.mem_append.1 hev with h | h
    · exact Nat.le_of_lt (hlt ev h)
    · simp at h; rcases h with h | h <;> subst h <;> simp
  · intro w1 w2 e hH hU
    have hout : EnsureUploaded os c ctx (pre ++ item :: post) onUploaded onPresent w
        = ⟨some e, w2, (EnsureUploaded os c ctx pre onUploaded onPresent w).trace
            ++ [⟨pre.length, item, .haveBlob⟩, ⟨pre.length, item, .uploadBlob⟩]⟩ := by
      rw [EnsureUploaded_reach os c ctx onUploaded onPresent pre (item :: post) w hreach]
      simp only [ensureLoop, hH, hU, Outcome.after]
    rw [hout]
    refine ⟨rfl, rfl, ?_, ?_⟩
    · intro ev hev
      rcases List.mem_append.1 hev with h | h
      · exact Nat.le_of_lt (hlt ev h)
      · simp at h; rcases h with h | h <;> subst h <;> simp
    · rw [callsFor_append, callsFor_loop_before]
      simp [callsFor]
  · intro w1 w2 w3 e hH hU hC
    have hout : EnsureUploaded os c ctx (pre ++ item :: post) onUploaded onPresent w
        = ⟨some e, w3, (EnsureUploaded os c ctx pre onUploaded onPresent w).trace
            ++ [⟨pre.length, item, .haveBlob⟩, ⟨pre.length, item, .uploadBlob⟩,
              ⟨pre.length, item, .onUploaded⟩]⟩ := by
      rw [EnsureUploaded_reach os c ctx onUploaded onPresent pre (item :: post) w hreach]
      simp only [ensureLoop, hH, hU, hC, Outcome.after]
    rw [hout]
    refine ⟨rfl, rfl, ?_⟩
    intro ev hev
    rcases List.mem_append.1 hev with h | h
    · exact Nat.le_of_lt (hlt ev h)
    · simp at h; rcases h with h | h | h <;> subst h <;> simp

end Orchestrator

section OrchestratorWitnesses

/-- C1 at a concrete input, over the ledger: `k1` is present, `k2` is absent
and is uploaded.  The ledger after the iteration for `k2` shows one upload of
`k2`, one call of `onUploaded` with the item and no call of `onPresent` with
it. -/
theorem absent_item_uploaded_once_witness :
    (EnsureUploaded ledgerOS ledgerClient liveCtx [⟨"/a", "k1"⟩] ledgerOnUploaded
        ledgerOnPresent ledgerStart).err = none
    ∧ haveBlob ledgerClient liveCtx ⟨"/b", "k2"⟩
        (EnsureUploaded ledgerOS ledgerClient liveCtx [⟨"/a", "k1"⟩] ledgerOnUploaded
          ledgerOnPresent ledgerStart).world
        = ((false, none), ⟨["k1"], ["k1", "k2"], [], [], [], [], [⟨"/a", "k1"⟩]⟩)
    ∧ uploadBlob ledgerOS ledgerClient liveCtx ⟨"/b", "k2"⟩
        ⟨["k1"], ["k1", "k2"], [], [], [], [], [⟨"/a", "k1"⟩]⟩
        = (none, ⟨["k1", "k2"], ["k1", "k2"], ["/b"], [⟨"test", "k2", ⟨3⟩⟩], [⟨3⟩], [],
            [⟨"/a", "k1"⟩]⟩)
    ∧ ledgerOnUploaded ⟨"/b", "k2"⟩
        ⟨["k1", "k2"], ["k1", "k2"], ["/b"], [⟨"test", "k2", ⟨3⟩⟩], [⟨3⟩], [],
          [⟨"/a", "k1"⟩]⟩
        = (none, ⟨["k1", "k2"], ["k1", "k2"], ["/b"], [⟨"test", "k2", ⟨3⟩⟩], [⟨3⟩],
            [⟨"/b", "k2"⟩], [⟨"/a", "k1"⟩]⟩)
    ∧ callsFor (EnsureUploaded ledgerOS ledgerClient liveCtx
          ([⟨"/a", "k1"⟩] ++ ⟨"/b", "k2"⟩ :: [⟨"/c", "k2"⟩]) ledgerOnUploaded ledgerOnPresent
          ledgerStart).trace 1
        = [⟨1, ⟨"/b", "k2"⟩, .haveBlob⟩, ⟨1, ⟨"/b", "k2"⟩, .uploadBlob⟩,
            ⟨1, ⟨"/b", "k2"⟩, .onUploaded⟩]
    ∧ (EnsureUploaded ledgerOS ledgerClient liveCtx ([⟨"/a", "k1"⟩] ++ [⟨"/b", "k2"⟩])
          ledgerOnUploaded ledgerOnPresent ledgerStart).world
        = ⟨["k1", "k2"], ["k1", "k2"], ["/b"], [⟨"test", "k2", ⟨3⟩⟩], [⟨3⟩],
            [⟨"/b", "k2"⟩], [⟨"/a", "k1"⟩]⟩ :=
  ⟨by decide, by decide, by decide, by decide,
    (absent_item_uploaded_once ledgerOS ledgerClient liveCtx ledgerOnUploaded ledgerOnPresent
      [⟨"/a", "k1"⟩] [⟨"/c", "k2"⟩] ⟨"/b", "k2"⟩ ledgerStart
      ⟨["k1"], ["k1", "k2"], [], [], [], [], [⟨"/a", "k1"⟩]⟩
      ⟨["k1", "k2"], ["k1", "k2"], ["/b"], [⟨"test", "k2", ⟨3⟩⟩], [⟨3⟩], [], [⟨"/a", "k1"⟩]⟩
      ⟨["k1", "k2"], ["k1", "k2"], ["/b"], [⟨"test", "k2", ⟨3⟩⟩], [⟨3⟩], [⟨"/b", "k2"⟩],
        [⟨"/a", "k1"⟩]⟩
      (by decide) (by decide) (by decide) (by decide)).1,
    (absent_item_uploaded_once ledgerOS ledgerClient liveCtx ledgerOnUploaded ledgerOnPresent
      [⟨"/a", "k1"⟩] [⟨"/c", "k2"⟩] ⟨"/b", "k2"⟩ ledgerStart
      ⟨["k1"], ["k1", "k2"], [], [], [], [], [⟨"/a", "k1"⟩]⟩
      ⟨["k1", "k2"], ["k1", "k2"], ["/b"], [⟨"test", "k2", ⟨3⟩⟩], [⟨3⟩], [], [⟨"/a", "k1"⟩]⟩
      ⟨["k1", "k2"], ["k1", "k2"], ["/b"], [⟨"test", "k2", ⟨3⟩⟩], [⟨3⟩], [⟨"/b", "k2"⟩],
        [⟨"/a", "k1"⟩]⟩
      (by decide) (by decide) (by decide) (by decide)).2.2.2.2.1⟩

/-- C2 at concrete inputs, over the ledger: `k1` is present.  With an
`onPresent` that succeeds and with one that fails, the ledger after the
iteration shows one call of `onPresent` with the item, no upload and no call
of `onUploaded`. -/
theorem present_item_onPresent_once_witness :
    ((EnsureUploaded ledgerOS ledgerClient liveCtx [] ledgerOnUploaded ledgerOnPresent
        ledgerStart).err = none
    ∧ haveBlob ledgerClient liveCtx ⟨"/a", "k1"⟩
        (EnsureUploaded ledgerOS ledgerClient liveCtx [] ledgerOnUploaded ledgerOnPresent
          ledgerStart).world
        = ((true, none), ⟨["k1"], ["k1"], [], [], [], [], []⟩)
    ∧ callCount (EnsureUploaded ledgerOS ledgerClient liveCtx
          ([] ++ ⟨"/a", "k1"⟩ :: [⟨"/b", "k2"⟩]) ledgerOnUploaded ledgerOnPresent
          ledgerStart).trace 0 .onPresent = 1
    ∧ (EnsureUploaded ledgerOS ledgerClient liveCtx ([] ++ [⟨"/a", "k1"⟩]) ledgerOnUploaded
          ledgerOnPresent ledgerStart).world
        = (ledgerOnPresent ⟨"/a", "k1"⟩ ⟨["k1"], ["k1"], [], [], [], [], []⟩).2
    ∧ (ledgerOnPresent ⟨"/a", "k1"⟩ ⟨["k1"], ["k1"], [], [], [], [], []⟩).2
        = ⟨["k1"], ["k1"], [], [], [], [], [⟨"/a", "k1"⟩]⟩)
    ∧ ((EnsureUploaded ledgerOS ledgerClient liveCtx [] ledgerOnUploaded ledgerOnPresentFail
        ledgerStart).err = none
    ∧ haveBlob ledgerClient liveCtx ⟨"/a", "k1"⟩
        (EnsureUploaded ledgerOS ledgerClient liveCtx [] ledgerOnUploaded ledgerOnPresentFail
          ledgerStart).world
        = ((true, none), ⟨["k1"], ["k1"], [], [], [], [], []⟩)
    ∧ (ledgerOnPresentFail ⟨"/a", "k1"⟩ ⟨["k1"], ["k1"], [], [], [], [], []⟩).1
        = some (.leaf "callback failed")
    ∧ EnsureUploaded ledgerOS ledgerClient liveCtx ([] ++ ⟨"/a", "k1"⟩ :: [⟨"/b", "k2"⟩])
          ledgerOnUploaded ledgerOnPresentFail ledgerStart
        = ⟨some (.leaf "callback failed"),
            (ledgerOnPresentFail ⟨"/a", "k1"⟩ ⟨["k1"], ["k1"], [], [], [], [], []⟩).2,
            (EnsureUploaded ledgerOS ledgerClient liveCtx [] ledgerOnUploaded
              ledgerOnPresentFail ledgerStart).trace
              ++ [⟨([] : List SyncItem).length, ⟨"/a", "k1"⟩, .haveBlob⟩,
                ⟨([] : List SyncItem).length, ⟨"/a", "k1"⟩, .onPresent⟩]⟩
    ∧ (ledgerOnPresentFail ⟨"/a", "k1"⟩ ⟨["k1"], ["k1"], [], [], [], [], []⟩).2
        = ⟨["k1"], ["k1"], [], [], [], [], [⟨"/a", "k1"⟩]⟩) :=
  ⟨⟨by decide, by decide,
    (present_item_onPresent_once ledgerOS ledgerClient liveCtx ledgerOnUploaded
      ledgerOnPresent [] [⟨"/b", "k2"⟩] ⟨"/a", "k1"⟩ ledgerStart
      ⟨["k1"], ["k1"], [], [], [], [], []⟩ (by decide) (by decide)).2.1,
    (present_item_onPresent_once ledgerOS ledgerClient liveCtx ledgerOnUploaded
      ledgerOnPresent [] [⟨"/b", "k2"⟩] ⟨"/a", "k1"⟩ ledgerStart
      ⟨["k1"], ["k1"], [], [], [], [], []⟩ (by decide) (by decide)).2.2.2.2.1,
    by decide⟩,
   ⟨by decide, by decide, by decide,
    (present_item_onPresent_once ledgerOS ledgerClient liveCtx ledgerOnUploaded
      ledgerOnPresentFail [] [⟨"/b", "k2"⟩] ⟨"/a", "k1"⟩ ledgerStart
      ⟨["k1"], ["k1"], [], [], [], [], []⟩ (by decide) (by decide)).2.2.2.2.2.2.2
      (.leaf "callback failed") (by decide),
    by decide⟩⟩

/-- C3 at a concrete input: the presence check of the second item fails. -/
theorem presence_error_stops_batch_witness :
    (EnsureUploaded memOS brokenClient liveCtx [] okCallback okCallback []).err = none
    ∧ haveBlob brokenClient liveCtx ⟨"/a", "k1"⟩
        (EnsureUploaded memOS brokenClient liveCtx [] okCallback okCallback []).world
        = ((false, some (.leaf "connection reset by peer")), [])
    ∧ (EnsureUploaded memOS brokenClient liveCtx ([] ++ ⟨"/a", "k1"⟩ :: [⟨"/b", "k2"⟩])
          okCallback okCallback []).trace
        = (EnsureUploaded memOS brokenClient liveCtx [] okCallback okCallback []).trace
          ++ [⟨0, ⟨"/a", "k1"⟩, .haveBlob⟩] :=
  ⟨by decide, by decide,
    (presence_error_stops_batch memOS brokenClient liveCtx okCallback okCallback
      [] [⟨"/b", "k2"⟩] ⟨"/a", "k1"⟩ [] [] false (.leaf "connection reset by peer")
      (by decide) (by decide)).2.2.2.1⟩

/-- C4 at concrete inputs: the source file of the absent `k2` is missing, so
`uploadBlob` fails; `onPresent` fails for the present `k1`; `onUploaded`
fails for the uploaded `k2`.  Each time the error is the result. -/
theorem step_error_returned_unchanged_witness :
    ((EnsureUploaded memOS memClient liveCtx [⟨"/a", "k1"⟩] okCallback okCallback ["k1"]).err
      = none
    ∧ haveBlob memClient liveCtx ⟨"/missing", "k2"⟩
        (EnsureUploaded memOS memClient liveCtx [⟨"/a", "k1"⟩] okCallback okCallback
          ["k1"]).world = ((false, none), ["k1"])
    ∧ uploadBlob memOS memClient liveCtx ⟨"/missing", "k2"⟩ ["k1"]
        = (some (errorfW "upload (open) /missing: "
            (.leaf "open /missing: no such file or directory")), ["k1"])
    ∧ (EnsureUploaded memOS memClient liveCtx
          ([⟨"/a", "k1"⟩] ++ ⟨"/missing", "k2"⟩ :: [⟨"/c", "k3"⟩]) okCallback okCallback
          ["k1"]).err
        = some (errorfW "upload (open) /missing: "
            (.leaf "open /missing: no such file or directory")))
    ∧ ((EnsureUploaded memOS memClient liveCtx [] okCallback failCallback ["k1"]).err = none
    ∧ haveBlob memClient liveCtx ⟨"/a", "k1"⟩
        (EnsureUploaded memOS memClient liveCtx [] okCallback failCallback ["k1"]).world
        = ((true, none), ["k1"])
    ∧ failCallback ⟨"/a", "k1"⟩ ["k1"] = (some (.leaf "callback failed"), ["k1"])
    ∧ (EnsureUploaded memOS memClient liveCtx ([] ++ ⟨"/a", "k1"⟩ :: [⟨"/b", "k2"⟩])
          okCallback failCallback ["k1"]).err = some (.leaf "callback failed"))
    ∧ ((EnsureUploaded memOS memClient liveCtx [] failCallback okCallback ["k1"]).err = none
    ∧ haveBlob memClient liveCtx ⟨"/b", "k2"⟩
        (EnsureUploaded memOS memClient liveCtx [] failCallback okCallback ["k1"]).world
        = ((false, none), ["k1"])
    ∧ uploadBlob memOS memClient liveCtx ⟨"/b", "k2"⟩ ["k1"] = (none, ["k2", "k1"])
    ∧ failCallback ⟨"/b", "k2"⟩ ["k2", "k1"] = (some (.leaf "callback failed"), ["k2", "k1"])
    ∧ (EnsureUploaded memOS memClient liveCtx ([] ++ ⟨"/b", "k2"⟩ :: [⟨"/c", "k3"⟩])
          failCallback okCallback ["k1"]).err = some (.leaf "callback failed")) :=
  ⟨⟨by decide, by decide, by decide,
    ((step_error_returned_unchanged memOS memClient liveCtx okCallback okCallback
      [⟨"/a", "k1"⟩] [⟨"/c", "k3"⟩] ⟨"/missing", "k2"⟩ ["k1"] (by decide)).2.1
      ["k1"] ["k1"] _ (by decide) (by decide)).1⟩,
   ⟨by decide, by decide, by decide,
    ((step_error_returned_unchanged memOS memClient liveCtx okCallback failCallback
      [] [⟨"/b", "k2"⟩] ⟨"/a", "k1"⟩ ["k1"] (by decide)).1
      ["k1"] ["k1"] _ (by decide) (by decide)).1⟩,
   ⟨by decide, by decide, by decide, by decide,
    ((step_error_returned_unchanged memOS memClient liveCtx failCallback okCallback
      [] [⟨"/c", "k3"⟩] ⟨"/b", "k2"⟩ ["k1"] (by decide)).2.2
      ["k1"] ["k2", "k1"] ["k2", "k1"] _ (by decide) (by decide) (by decide)).1⟩⟩

end OrchestratorWitnesses

/-! ## `haveBlob`, `uploadBlob` and `doJSONRequest`: results and messages -/

section Messages

/-- A message mentions each of the parts it is put together from. -/
theorem mentions_part (front part back : String) : mentions (front ++ part ++ back) part :=
  ⟨front.data, back.data, by simp⟩

/-- A message that ends in a part mentions it. -/
theorem mentions_tail (front part : String) : mentions (front ++ part) part :=
  ⟨front.data, [], by simp⟩

/-- A message that starts with a part mentions it. -/
theorem mentions_head (part back : String) : mentions (part ++ back) part :=
  ⟨[], back.data, by simp⟩

variable {σ : Type}

/-- C5: `haveBlob` returns `(true, nil)` exactly when the existence query
succeeds, `(false, nil)` exactly when the query fails with an error that is
an `awserr.Error` with code `NotFound`, and in every other case `false` with
a non-nil error; it never returns `true` with an error, and a nil error
means that the query succeeded or failed with `NotFound`. -/
theorem haveBlob_classifies (c : Client σ) (ctx : Context) (item : SyncItem) (w : σ) :
    ((haveBlob c ctx item w).1 = (true, none) ↔
      (c.HeadObject ⟨c.env.GwEnv, item.Key⟩ w).1 = none)
    ∧ ((haveBlob c ctx item w).1 = (false, none) ↔
      ∃ err, (c.HeadObject ⟨c.env.GwEnv, item.Key⟩ w).1 = some err
        ∧ err.awsCode = some "NotFound")
    ∧ (∀ err, (c.HeadObject ⟨c.env.GwEnv, item.Key⟩ w).1 = some err →
        err.awsCode ≠ some "NotFound" →
        (haveBlob c ctx item w).1.1 = false ∧ (haveBlob c ctx item w).1.2 ≠ none)
    ∧ (∀ e, (haveBlob c ctx item w).1 ≠ (true, some e))
    ∧ ((haveBlob c ctx item w).1.2 = none →
        (c.HeadObject ⟨c.env.GwEnv, item.Key⟩ w).1 = none
        ∨ ∃ err, (c.HeadObject ⟨c.env.GwEnv, item.Key⟩ w).1 = some err
          ∧ err.awsCode = some "NotFound") := by
  unfold haveBlob
  rcases hH : c.HeadObject ⟨c.env.GwEnv, item.Key⟩ w with ⟨r, w1⟩
  cases r with
  | none => simp
  | some err =>
    by_cases hc : err.awsCode = some "NotFound"
    · simp [hc]
    · simp [hc]

/-- C5 at concrete inputs: a present key, a missing key and a broken store. -/
theorem haveBlob_classifies_witness :
    (haveBlob memClient liveCtx ⟨"/a", "k1"⟩ ["k1"]).1 = (true, none)
    ∧ (haveBlob memClient liveCtx ⟨"/b", "k2"⟩ ["k1"]).1 = (false, none)
    ∧ (brokenClient.HeadObject ⟨brokenClient.env.GwEnv, "k1"⟩ []).1
        = some (.leaf "connection reset by peer")
    ∧ (GoError.leaf "connection reset by peer").awsCode ≠ some "NotFound"
    ∧ (haveBlob brokenClient liveCtx ⟨"/a", "k1"⟩ []).1.1 = false
    ∧ (haveBlob brokenClient liveCtx ⟨"/a", "k1"⟩ []).1.2 ≠ none :=
  ⟨(haveBlob_classifies memClient liveCtx ⟨"/a", "k1"⟩ ["k1"]).1.2 (by decide),
    (haveBlob_classifies memClient liveCtx ⟨"/b", "k2"⟩ ["k1"]).2.1.2
      ⟨.awsErr "NotFound" "NotFound: Not Found", by decide, by decide⟩,
    by decide, by decide,
    (haveBlob_classifies brokenClient liveCtx ⟨"/a", "k1"⟩ []).2.2.1
      (.leaf "connection reset by peer") (by decide) (by decide)⟩

/-- C8, as stated, fails: the existence query for `k1` fails with a
connection error, which is not `NotFound`, and `haveBlob` returns no error
that wraps that error and has the key in its message. -/
theorem haveBlob_wraps_with_key_counterexample :
    (brokenClient.HeadObject ⟨brokenClient.env.GwEnv, "k1"⟩ []).1
      = some (.leaf "connection reset by peer")
    ∧ (GoError.leaf "connection reset by peer").awsCode ≠ some "NotFound"
    ∧ ¬ ∃ err, (haveBlob brokenClient liveCtx ⟨"/a", "k1"⟩ []).1 = (false, some err)
        ∧ err.Unwrap = some (.leaf "connection reset by peer")
        ∧ mentions err.Error "k1" := by
  refine ⟨by decide, by decide, ?_⟩
  rintro ⟨err, h, hu, -⟩
  have h2 : (haveBlob brokenClient liveCtx ⟨"/a", "k1"⟩ []).1
      = (false, some (.leaf "connection reset by peer")) := by decide
  rw [h2] at h
  simp at h
  subst h
  simp [GoError.Unwrap] at hu

/-- C8, amended: when the existence query fails with an error that is not
`NotFound`, `haveBlob` returns `false` and that very error, neither wrapped
nor extended by the key; its message is the message of the query's error. -/
theorem haveBlob_returns_query_error (c : Client σ) (ctx : Context) (item : SyncItem)
    (w w1 : σ) (err : GoError)
    (hhead : c.HeadObject ⟨c.env.GwEnv, item.Key⟩ w = (some err, w1))
    (hcode : err.awsCode ≠ some "NotFound") :
    haveBlob c ctx item w = ((false, some err), w1) := by
  simp [haveBlob, hhead, hcode]

/-- C8, amended, at a concrete input. -/
theorem haveBlob_returns_query_error_witness :
    brokenClient.HeadObject ⟨brokenClient.env.GwEnv, "k1"⟩ []
      = (some (.leaf "connection reset by peer"), [])
    ∧ (GoError.leaf "connection reset by peer").awsCode ≠ some "NotFound"
    ∧ haveBlob brokenClient liveCtx ⟨"/a", "k1"⟩ []
      = ((false, some (.leaf "connection reset by peer")), []) :=
  ⟨by decide, by decide,
    haveBlob_returns_query_error brokenClient liveCtx ⟨"/a", "k1"⟩ [] []
      (.leaf "connection reset by peer") (by decide) (by decide)⟩

/-- C9, as stated, fails: the source `/b` opens, the remote write of `k2`
fails, and `uploadBlob` returns no error that wraps the transport error and
has both the source path and the key in its message. -/
theorem uploadBlob_s3_message_has_key_counterexample :
    memOS.Open "/b" [] = (.ok ⟨3⟩, [])
    ∧ brokenClient.UploadWithContext liveCtx ⟨brokenClient.env.GwEnv, "k2", ⟨3⟩⟩ []
        = (some (.awsErr "InternalError" "InternalError: try again"), [])
    ∧ ¬ ∃ err, (uploadBlob memOS brokenClient liveCtx ⟨"/b", "k2"⟩ []).1 = some err
        ∧ err.Unwrap = some (.awsErr "InternalError" "InternalError: try again")
        ∧ mentions err.Error "/b" ∧ mentions err.Error "k2" := by
  refine ⟨by rfl, by decide, ?_⟩
  rintro ⟨err, h, -, -, hk⟩
  have h2 : (uploadBlob memOS brokenClient liveCtx ⟨"/b", "k2"⟩ []).1
      = some (.wrapError "upload (s3) /b: InternalError: try again"
          (.awsErr "InternalError" "InternalError: try again")) := by decide
  rw [h2] at h
  simp at h
  subst h
  revert hk
  decide

/-- The two messages of `uploadBlob` differ in their ninth character. -/
theorem open_message_ne_s3_message (p1 p2 m1 m2 : String) :
    "upload (open) " ++ p1 ++ ": " ++ m1 ≠ "upload (s3) " ++ p2 ++ ": " ++ m2 := by
  intro h
  have h1 : "upload (open) ".data
      = ['u', 'p', 'l', 'o', 'a', 'd', ' ', '(', 'o', 'p', 'e', 'n', ')', ' '] := rfl
  have h2 : "upload (s3) ".data
      = ['u', 'p', 'l', 'o', 'a', 'd', ' ', '(', 's', '3', ')', ' '] := rfl
  have := congrArg String.data h
  simp only [String.data_append, h1, h2, List.cons_append, List.cons.injEq] at this
  exact absurd this.2.2.2.2.2.2.2.2.1 (by decide)

/-- C9, amended: if opening the source file fails with `e`, `uploadBlob`
returns an error that wraps `e`, whose message starts with `upload (open) `
and contains the source path; if the remote write fails with `e`, it returns
an error that wraps `e`, whose message is `upload (s3) `, the source path,
`: ` and the message of `e` (the key is not put into it); a message of the
first kind is never equal to one of the second kind. -/
theorem uploadBlob_error_messages (os : OS σ) (c : Client σ) (ctx : Context)
    (item : SyncItem) (w : σ) :
    (∀ (e : GoError) (w1 : σ), os.Open item.SrcPath w = (.error e, w1) →
      ∃ err, uploadBlob os c ctx item w = (some err, w1)
        ∧ err.Unwrap = some e
        ∧ err.Error = "upload (open) " ++ item.SrcPath ++ ": " ++ e.Error
        ∧ startsWith err.Error "upload (open) "
        ∧ mentions err.Error item.SrcPath)
    ∧ (∀ (file : File) (e : GoError) (w1 w2 : σ), os.Open item.SrcPath w = (.ok file, w1) →
      c.UploadWithContext ctx ⟨c.env.GwEnv, item.Key, file⟩ w1 = (some e, w2) →
      ∃ err, uploadBlob os c ctx item w = (some err, os.Close file w2)
        ∧ err.Unwrap = some e
        ∧ err.Error = "upload (s3) " ++ item.SrcPath ++ ": " ++ e.Error
        ∧ startsWith err.Error "upload (s3) "
        ∧ mentions err.Error item.SrcPath)
    ∧ (∀ (p1 p2 : String) (e1 e2 : GoError),
      (errorfW ("upload (open) " ++ p1 ++ ": ") e1).Error
        ≠ (errorfW ("upload (s3) " ++ p2 ++ ": ") e2).Error) := by
  refine ⟨?_, ?_, ?_⟩
  · intro e w1 hO
    refine ⟨errorfW ("upload (open) " ++ item.SrcPath ++ ": ") e, ?_, rfl, rfl, ?_, ?_⟩
    · simp [uploadBlob, hO]
    · exact ⟨(item.SrcPath ++ ": " ++ e.Error).data, by simp [errorfW, GoError.Error]⟩
    · exact ⟨"upload (open) ".data, (": " ++ e.Error).data, by simp [errorfW, GoError.Error]⟩
  · intro file e w1 w2 hO hU
    refine ⟨errorfW ("upload (s3) " ++ item.SrcPath ++ ": ") e, ?_, rfl, rfl, ?_, ?_⟩
    · simp [uploadBlob, hO, hU]
    · exact ⟨(item.SrcPath ++ ": " ++ e.Error).data, by simp [errorfW, GoError.Error]⟩
    · exact ⟨"upload (s3) ".data, (": " ++ e.Error).data, by simp [errorfW, GoError.Error]⟩
  · intro p1 p2 e1 e2
    exact open_message_ne_s3_message p1 p2 e1.Error e2.Error

/-- C9, amended, at concrete inputs: a missing source file, and a remote
write that fails. -/
theorem uploadBlob_error_messages_witness :
    memOS.Open "/missing" [] = (.error (.leaf "open /missing: no such file or directory"), [])
    ∧ (∃ err, uploadBlob memOS memClient liveCtx ⟨"/missing", "k2"⟩ [] = (some err, [])
        ∧ err.Unwrap = some (.leaf "open /missing: no such file or directory")
        ∧ err.Error = "upload (open) " ++ "/missing" ++ ": "
            ++ "open /missing: no such file or directory"
        ∧ startsWith err.Error "upload (open) "
        ∧ mentions err.Error "/missing")
    ∧ memOS.Open "/b" [] = (.ok ⟨3⟩, [])
    ∧ brokenClient.UploadWithContext liveCtx ⟨brokenClient.env.GwEnv, "k2", ⟨3⟩⟩ []
        = (some (.awsErr "InternalError" "InternalError: try again"), [])
    ∧ (∃ err, uploadBlob memOS brokenClient liveCtx ⟨"/b", "k2"⟩ [] = (some err, [])
        ∧ err.Unwrap = some (.awsErr "InternalError" "InternalError: try again")
        ∧ err.Error = "upload (s3) " ++ "/b" ++ ": " ++ "InternalError: try again"
        ∧ startsWith err.Error "upload (s3) "
        ∧ mentions err.Error "/b") :=
  ⟨by rfl,
    (uploadBlob_error_messages memOS memClient liveCtx ⟨"/missing", "k2"⟩ []).1
      (.leaf "open /missing: no such file or directory") [] (by rfl),
    by rfl, by decide,
    (uploadBlob_error_messages memOS brokenClient liveCtx ⟨"/b", "k2"⟩ []).2.1
      ⟨3⟩ (.awsErr "InternalError" "InternalError: try again") [] [] (by rfl) (by decide)⟩

/-- C10: for `doJSONRequest`, when the request `req` was built and the
transport returned the response `resp`: with a status code below 200 or above
299 the result is an error whose message contains the method and the URL of
the request and the status text, the body is not decoded and the target is
left as it was; with a status code within 200..299 the body is decoded into
the target, the result is nil exactly when decoding succeeds, and a decode
error `e` gives an error that wraps `e` and whose message contains the method
and the URL of the request. -/
theorem doJSONRequest_status_and_decode {β τ : Type} (env : Environment) (h : HTTP σ β τ)
    (ctx : Context) (method url : String) (body : Option String) (target : τ) (w w1 : σ)
    (req : Request) (resp : Response β)
    (hreq : h.NewRequestWithContext ctx method (env.GwURL ++ url) body = .ok req)
    (hdo : h.Do ⟨req.Method, req.URL,
        setHeader (setHeader req.Header "Accept" ["application/json"])
          "Content-Type" ["application/json"]⟩ w = (.ok resp, w1)) :
    ((resp.StatusCode < 200 ∨ resp.StatusCode > 299) →
      (∃ err, (doJSONRequest env h ctx method url body target w).err = some err
        ∧ err.Unwrap = none
        ∧ mentions err.Error req.Method ∧ mentions err.Error req.URL
        ∧ mentions err.Error resp.Status)
      ∧ BodyEvent.decode ∉ (doJSONRequest env h ctx method url body target w).body
      ∧ (doJSONRequest env h ctx method url body target w).target = target)
    ∧ ((200 ≤ resp.StatusCode ∧ resp.StatusCode ≤ 299) →
      (doJSONRequest env h ctx method url body target w).body = [.decode, .close]
      ∧ (doJSONRequest env h ctx method url body target w).target
          = (h.Decode resp.Body target w1).1.2
      ∧ ((doJSONRequest env h ctx method url body target w).err = none ↔
          (h.Decode resp.Body target w1).1.1 = none)
      ∧ (∀ e, (h.Decode resp.Body target w1).1.1 = some e →
          ∃ err, (doJSONRequest env h ctx method url body target w).err = some err
            ∧ err.Unwrap = some e
            ∧ mentions err.Error req.Method ∧ mentions err.Error req.URL)) := by
  constructor
  · intro hs
    have hout : doJSONRequest env h ctx method url body target w
        = ⟨some (errorfS (req.Method ++ " " ++ req.URL ++ ": " ++ resp.Status ++ " "
            ++ resp.BodyText)), target, h.CloseBody resp.Body w1, [.close]⟩ := by
      simp [doJSONRequest, hreq, hdo, hs]
    rw [hout]
    refine ⟨⟨_, rfl, rfl, ?_, ?_, ?_⟩, by simp, rfl⟩
    · exact ⟨[], (" " ++ req.URL ++ ": " ++ resp.Status ++ " " ++ resp.BodyText).data,
        by simp [errorfS, GoError.Error]⟩
    · exact ⟨(req.Method ++ " ").data, (": " ++ resp.Status ++ " " ++ resp.BodyText).data,
        by simp [errorfS, GoError.Error]⟩
    · exact ⟨(req.Method ++ " " ++ req.URL ++ ": ").data, (" " ++ resp.BodyText).data,
        by simp [errorfS, GoError.Error]⟩
  · intro hs
    have hs2 : ¬ (resp.StatusCode < 200 ∨ resp.StatusCode > 299) := by omega
    rcases hD : h.Decode resp.Body target w1 with ⟨⟨r, t1⟩, w2⟩
    cases r with
    | none =>
      have hout : doJSONRequest env h ctx method url body target w
          = ⟨none, t1, h.CloseBody resp.Body w2, [.decode, .close]⟩ := by
        simp [doJSONRequest, hreq, hdo, hs2, hD]
      rw [hout]
      simp
    | some e =>
      have hout : doJSONRequest env h ctx method url body target w
          = ⟨some (errorfW (req.Method ++ " " ++ req.URL ++ ": ") e), t1,
              h.CloseBody resp.Body w2, [.decode, .close]⟩ := by
        simp [doJSONRequest, hreq, hdo, hs2, hD]
      rw [hout]
      refine ⟨rfl, rfl, by simp, ?_⟩
      intro e2 he2
      simp at he2
      subst he2
      refine ⟨_, rfl, rfl, ?_, ?_⟩
      · exact ⟨[], (" " ++ req.URL ++ ": " ++ e.Error).data,
          by simp [errorfW, GoError.Error]⟩
      · exact ⟨(req.Method ++ " ").data, (": " ++ e.Error).data,
          by simp [errorfW, GoError.Error]⟩

/-- C10 at concrete inputs: a 404 response, a 200 response whose body
decodes and a 200 response whose body does not. -/
theorem doJSONRequest_status_and_decode_witness :
    ((∃ err, (doJSONRequest ⟨"https://gw.example.com", "test"⟩ (memHTTP 404 "404 Not Found")
          liveCtx "GET" "/task/1" none "" ()).err = some err
        ∧ err.Unwrap = none
        ∧ mentions err.Error "GET" ∧ mentions err.Error "https://gw.example.com/task/1"
        ∧ mentions err.Error "404 Not Found")
      ∧ BodyEvent.decode ∉ (doJSONRequest ⟨"https://gw.example.com", "test"⟩
          (memHTTP 404 "404 Not Found") liveCtx "GET" "/task/1" none "" ()).body
      ∧ (doJSONRequest ⟨"https://gw.example.com", "test"⟩ (memHTTP 404 "404 Not Found")
          liveCtx "GET" "/task/1" none "" ()).target = "")
    ∧ ((doJSONRequest ⟨"https://gw.example.com", "test"⟩ (memHTTP 200 "200 OK")
          liveCtx "GET" "/task/1" none "" ()).err = none ↔
        (((memHTTP 200 "200 OK").Decode "\x7b\x7d" "" ()).1.1 = none))
    ∧ (∃ err, (doJSONRequest ⟨"https://gw.example.com", "test"⟩ (emptyHTTP 200 "200 OK")
          liveCtx "GET" "/task/1" none "" ()).err = some err
        ∧ err.Unwrap = some (.leaf "EOF")
        ∧ mentions err.Error "GET" ∧ mentions err.Error "https://gw.example.com/task/1") :=
  ⟨(doJSONRequest_status_and_decode ⟨"https://gw.example.com", "test"⟩
      (memHTTP 404 "404 Not Found") liveCtx "GET" "/task/1" none "" () ()
      ⟨"GET", "https://gw.example.com/task/1", []⟩
      ⟨404, "404 Not Found", "\x7b\x7d", "0xc000010000"⟩ (by rfl) (by rfl)).1
      (Or.inr (by decide)),
    ((doJSONRequest_status_and_decode ⟨"https://gw.example.com", "test"⟩
      (memHTTP 200 "200 OK") liveCtx "GET" "/task/1" none "" () ()
      ⟨"GET", "https://gw.example.com/task/1", []⟩
      ⟨200, "200 OK", "\x7b\x7d", "0xc000010000"⟩ (by rfl) (by rfl)).2
      ⟨by decide, by decide⟩).2.2.1,
    ((doJSONRequest_status_and_decode ⟨"https://gw.example.com", "test"⟩
      (emptyHTTP 200 "200 OK") liveCtx "GET" "/task/1" none "" () ()
      ⟨"GET", "https://gw.example.com/task/1", []⟩
      ⟨200, "200 OK", "", "0xc000010000"⟩ (by rfl) (by rfl)).2
      ⟨by decide, by decide⟩).2.2.2 (.leaf "EOF") (by rfl)⟩

end Messages

/-! ## Running the batch twice over a store that keeps its keys -/

section Idempotence

variable {σ : Type} {os : OS σ} {c : Client σ} {present : σ → String → Prop}

theorem haveBlob_world (c : Client σ) (ctx : Context) (item : SyncItem) (w : σ) :
    (haveBlob c ctx item w).2 = (c.HeadObject ⟨c.env.GwEnv, item.Key⟩ w).2 := by
  unfold haveBlob
  rcases c.HeadObject ⟨c.env.GwEnv, item.Key⟩ w with ⟨r, w1⟩
  cases r with
  | none => rfl
  | some err => by_cases hc : err.awsCode = some "NotFound" <;> simp [hc]

theorem haveBlob_true_iff (c : Client σ) (ctx : Context) (item : SyncItem) (w : σ) :
    (haveBlob c ctx item w).1 = (true, none) ↔
      (c.HeadObject ⟨c.env.GwEnv, item.Key⟩ w).1 = none := by
  unfold haveBlob
  rcases c.HeadObject ⟨c.env.GwEnv, item.Key⟩ w with ⟨r, w1⟩
  cases r with
  | none => simp
  | some err => by_cases hc : err.awsCode = some "NotFound" <;> simp [hc]

theorem haveBlob_keeps (m : StoreModel os c present) (ctx : Context) (item : SyncItem)
    (w : σ) (key : String) (h : present w key) : present (haveBlob c ctx item w).2 key := by
  rw [haveBlob_world]
  exact m.head_keeps _ _ _ h

theorem haveBlob_true_present (m : StoreModel os c present) (ctx : Context) (item : SyncItem)
    (w w1 : σ) (h : haveBlob c ctx item w = ((true, none), w1)) : present w1 item.Key := by
  have h1 : (c.HeadObject ⟨c.env.GwEnv, item.Key⟩ w).1 = none :=
    (haveBlob_true_iff c ctx item w).1 (by rw [h])
  have h2 : present w item.Key := (m.head_ok_iff _ _).1 h1
  have := haveBlob_keeps m ctx item w item.Key h2
  rwa [h] at this

theorem haveBlob_of_present (m : StoreModel os c present) (ctx : Context) (item : SyncItem)
    (w : σ) (h : present w item.Key) :
    haveBlob c ctx item w = ((true, none), (haveBlob c ctx item w).2) := by
  have h1 := (haveBlob_true_iff c ctx item w).2 ((m.head_ok_iff _ _).2 h)
  exact Prod.ext h1 rfl

theorem uploadBlob_keeps (m : StoreModel os c present) (ctx : Context) (item : SyncItem)
    (w : σ) (key : String) (h : present w key) :
    present (uploadBlob os c ctx item w).2 key := by
  have hO := m.open_keeps item.SrcPath w key h
  rcases hOpen : os.Open item.SrcPath w with ⟨r, w1⟩
  rw [hOpen] at hO
  cases r with
  | error e => simpa [uploadBlob, hOpen] using hO
  | ok file =>
    have hU := m.upload_keeps ctx ⟨c.env.GwEnv, item.Key, file⟩ w1 key hO
    rcases hUp : c.UploadWithContext ctx ⟨c.env.GwEnv, item.Key, file⟩ w1 with ⟨r2, w2⟩
    rw [hUp] at hU
    cases r2 <;> simpa [uploadBlob, hOpen, hUp] using m.close_keeps file _ _ hU

theorem uploadBlob_adds (m : StoreModel os c present) (ctx : Context) (item : SyncItem)
    (w w2 : σ) (h : uploadBlob os c ctx item w = (none, w2)) : present w2 item.Key := by
  rcases hOpen : os.Open item.SrcPath w with ⟨r, w1⟩
  cases r with
  | error e => simp [uploadBlob, hOpen] at h
  | ok file =>
    have hA := m.upload_adds ctx item.Key file w1
    rcases hUp : c.UploadWithContext ctx ⟨c.env.GwEnv, item.Key, file⟩ w1 with ⟨r2, w3⟩
    rw [hUp] at hA
    cases r2 with
    | some e => simp [uploadBlob, hOpen, hUp] at h
    | none =>
      simp [uploadBlob, hOpen, hUp] at h
      subst h
      exact m.close_keeps _ _ _ (hA rfl)

/-- No run of the loop removes a key. -/
theorem ensureLoop_keeps (m : StoreModel os c present) (ctx : Context)
    (onUploaded onPresent : Callback σ) (hU : Keeps present onUploaded)
    (hP : Keeps present onPresent) (key : String) (items : List SyncItem) :
    ∀ (i : Nat) (w : σ), present w key →
      present (ensureLoop os c ctx onUploaded onPresent i items w).world key := by
  induction items with
  | nil => intro i w h; simpa [ensureLoop] using h
  | cons item rest ih =>
    intro i w h
    have h1 := haveBlob_keeps m ctx item w key h
    rcases hH : haveBlob c ctx item w with ⟨⟨b, e⟩, w1⟩
    rw [hH] at h1
    have h2 := hP item w1 key h1
    have h3 := uploadBlob_keeps m ctx item w1 key h1
    rcases hPr : onPresent item w1 with ⟨eP, w2⟩
    rcases hUp : uploadBlob os c ctx item w1 with ⟨eU, w3⟩
    rw [hPr] at h2
    rw [hUp] at h3
    have h4 := hU item w3 key h3
    rcases hC : onUploaded item w3 with ⟨eC, w4⟩
    rw [hC] at h4
    cases e <;> cases b <;> cases eP <;> cases eU <;> cases eC <;>
      simp [ensureLoop, hH, hPr, hUp, hC, Outcome.after] <;>
      first
        | assumption
        | exact ih _ _ h2
        | exact ih _ _ h4

/-- After a run that returns nil every item of the list is present. -/
theorem ensureLoop_ok_all_present (m : StoreModel os c present) (ctx : Context)
    (onUploaded onPresent : Callback σ) (hU : Keeps present onUploaded)
    (hP : Keeps present onPresent) (items : List SyncItem) :
    ∀ (i : Nat) (w : σ), (ensureLoop os c ctx onUploaded onPresent i items w).err = none →
      ∀ item ∈ items,
        present (ensureLoop os c ctx onUploaded onPresent i items w).world item.Key := by
  induction items with
  | nil => intro i w _ item hmem; simp at hmem
  | cons item rest ih =>
    intro i w hok it hmem
    rcases hH : haveBlob c ctx item w with ⟨⟨b, e⟩, w1⟩
    rcases hPr : onPresent item w1 with ⟨eP, w2⟩
    rcases hUp : uploadBlob os c ctx item w1 with ⟨eU, w3⟩
    rcases hC : onUploaded item w3 with ⟨eC, w4⟩
    have keepP := hP item w1 item.Key
    rw [hPr] at keepP
    have keepU := hU item w3 item.Key
    rw [hC] at keepU
    cases e with
    | some e => simp [ensureLoop, hH] at hok
    | none =>
      cases b with
      | true =>
        cases eP with
        | some e => simp [ensureLoop, hH, hPr] at hok
        | none =>
          simp only [ensureLoop, hH, hPr, Outcome.after] at hok ⊢
          rcases List.mem_cons.1 hmem with heq | hin
          · subst heq
            exact ensureLoop_keeps m ctx onUploaded onPresent hU hP _ rest _ _
              (keepP (haveBlob_true_present m ctx it w w1 hH))
          · exact ih _ _ hok it hin
      | false =>
        cases eU with
        | some e => simp [ensureLoop, hH, hUp] at hok
        | none =>
          cases eC with
          | some e => simp [ensureLoop, hH, hUp, hC] at hok
          | none =>
            simp only [ensureLoop, hH, hUp, hC, Outcome.after] at hok ⊢
            rcases List.mem_cons.1 hmem with heq | hin
            · subst heq
              exact ensureLoop_keeps m ctx onUploaded onPresent hU hP _ rest _ _
                (keepU (uploadBlob_adds m ctx it w1 w3 hUp))
            · exact ih _ _ hok it hin

/-- A run over items that are all present, with an `onPresent` that succeeds
and removes no key, returns nil after a presence check and an `onPresent`
for each item. -/
theorem ensureLoop_all_present (m : StoreModel os c present) (ctx : Context)
    (onUploaded onPresent : Callback σ) (hP : Keeps present onPresent)
    (hok : ∀ item w, (onPresent item w).1 = none) (items : List SyncItem) :
    ∀ (i : Nat) (w : σ), (∀ item ∈ items, present w item.Key) →
      (ensureLoop os c ctx onUploaded onPresent i items w).err = none
      ∧ (ensureLoop os c ctx onUploaded onPresent i items w).trace = presentTrace i items := by
  induction items with
  | nil => intro i w _; simp [ensureLoop, presentTrace]
  | cons item rest ih =>
    intro i w hall
    have hH := haveBlob_of_present m ctx item w (hall item (List.mem_cons_self _ _))
    have hPr : onPresent item (haveBlob c ctx item w).2
        = (none, (onPresent item (haveBlob c ctx item w).2).2) :=
      Prod.ext (hok _ _) rfl
    have hrest : ∀ it ∈ rest, present (onPresent item (haveBlob c ctx item w).2).2 it.Key := by
      intro it hit
      exact hP _ _ _ (haveBlob_keeps m ctx item w it.Key (hall it (List.mem_cons_of_mem _ hit)))
    have := ih (i + 1) _ hrest
    unfold ensureLoop
    rw [hH]
    simp only
    rw [hPr]
    simp only [Outcome.after, presentTrace]
    exact ⟨this.1, by rw [this.2]; rfl⟩

theorem callCount_presentTrace (items : List SyncItem) :
    ∀ (j i : Nat), j ≤ i → i < j + items.length →
      callCount (presentTrace j items) i .onPresent = 1 := by
  induction items with
  | nil => intro j i h1 h2; simp at h2; omega
  | cons item rest ih =>
    intro j i h1 h2
    simp only [List.length_cons] at h2
    by_cases hij : j = i
    · subst hij
      have hnil : callsFor (presentTrace (j + 1) rest) j = [] := by
        apply callsFor_eq_nil_of_gt
        intro e he
        clear ih h1 h2
        induction rest generalizing j with
        | nil => simp [presentTrace] at he
        | cons it rest ih2 =>
          simp only [presentTrace, List.mem_cons] at he
          rcases he with he | he | he
          · subst he; simp
          · subst he; simp
          · have := ih2 (j + 1) he
            omega
      rw [callCount_eq]
      have : callsFor (presentTrace j (item :: rest)) j
          = [⟨j, item, .haveBlob⟩, ⟨j, item, .onPresent⟩] := by
        have happ : presentTrace j (item :: rest)
            = [⟨j, item, .haveBlob⟩, ⟨j, item, .onPresent⟩] ++ presentTrace (j + 1) rest := rfl
        rw [happ, callsFor_append, hnil]
        simp [callsFor]
      rw [this]
      simp [List.filter]
    · have := ih (j + 1) i (by omega) (by omega)
      simp only [callCount, presentTrace] at this ⊢
      rw [List.filter_cons_of_neg (by simp [hij]), List.filter_cons_of_neg (by simp [hij])]
      exact this

theorem presentTrace_calls (items : List SyncItem) :
    ∀ (j : Nat), ∀ e ∈ presentTrace j items, e.call = .haveBlob ∨ e.call = .onPresent := by
  induction items with
  | nil => intro j e he; simp [presentTrace] at he
  | cons item rest ih =>
    intro j e he
    simp only [presentTrace, List.mem_cons] at he
    rcases he with he | he | he
    · subst he; simp
    · subst he; simp
    · exact ih _ e he

/-- A run over items that are all present, with an `onPresent` that succeeds
and removes no key, ends in the world that the presence checks and the calls
of `onPresent`, one per item and in order, leave. -/
theorem ensureLoop_all_present_world (m : StoreModel os c present) (ctx : Context)
    (onUploaded onPresent : Callback σ) (hP : Keeps present onPresent)
    (hok : ∀ item w, (onPresent item w).1 = none) (items : List SyncItem) :
    ∀ (i : Nat) (w : σ), (∀ item ∈ items, present w item.Key) →
      (ensureLoop os c ctx onUploaded onPresent i items w).world
        = presentWorld c ctx onPresent items w := by
  induction items with
  | nil => intro i w _; simp [ensureLoop, presentWorld]
  | cons item rest ih =>
    intro i w hall
    have hH := haveBlob_of_present m ctx item w (hall item (List.mem_cons_self _ _))
    have hPr : onPresent item (haveBlob c ctx item w).2
        = (none, (onPresent item (haveBlob c ctx item w).2).2) :=
      Prod.ext (hok _ _) rfl
    have hrest : ∀ it ∈ rest, present (onPresent item (haveBlob c ctx item w).2).2 it.Key := by
      intro it hit
      exact hP _ _ _ (haveBlob_keeps m ctx item w it.Key (hall it (List.mem_cons_of_mem _ hit)))
    have := ih (i + 1) _ hrest
    unfold ensureLoop
    rw [hH]
    simp only
    rw [hPr]
    simp only [Outcome.after, presentWorld]
    exact this

/-- C6: over a store model in which the existence query succeeds exactly
for the keys present, a successful upload makes its key present and nothing
(store, filesystem, callbacks) removes a key: if a first run of
`EnsureUploaded` returns nil, a second run over the same list from the world
the first run left, with an `onPresent` that succeeds, returns nil; its calls
are a presence check and then `onPresent` for each item in turn, so
`onPresent` is called once per item and neither `uploadBlob` nor `onUploaded`
is called at all.  The calls are the real ones: the world the second run
ends in is the world of the first run after, item by item, the presence
check and one call of `onPresent`, and nothing else. -/
theorem second_run_only_onPresent (m : StoreModel os c present) (ctx ctx2 : Context)
    (onUploaded onPresent onUploaded2 onPresent2 : Callback σ)
    (hU : Keeps present onUploaded) (hP : Keeps present onPresent)
    (hP2 : Keeps present onPresent2) (hok2 : ∀ item w, (onPresent2 item w).1 = none)
    (items : List SyncItem) (w : σ)
    (hfirst : (EnsureUploaded os c ctx items onUploaded onPresent w).err = none) :
    (EnsureUploaded os c ctx2 items onUploaded2 onPresent2
        (EnsureUploaded os c ctx items onUploaded onPresent w).world).err = none
    ∧ (EnsureUploaded os c ctx2 items onUploaded2 onPresent2
        (EnsureUploaded os c ctx items onUploaded onPresent w).world).trace
        = presentTrace 0 items
    ∧ (∀ i, i < items.length →
        callCount (EnsureUploaded os c ctx2 items onUploaded2 onPresent2
          (EnsureUploaded os c ctx items onUploaded onPresent w).world).trace i .onPresent = 1)
    ∧ (∀ e ∈ (EnsureUploaded os c ctx2 items onUploaded2 onPresent2
          (EnsureUploaded os c ctx items onUploaded onPresent w).world).trace,
        e.call ≠ .uploadBlob ∧ e.call ≠ .onUploaded)
    ∧ (EnsureUploaded os c ctx2 items onUploaded2 onPresent2
        (EnsureUploaded os c ctx items onUploaded onPresent w).world).world
        = presentWorld c ctx2 onPresent2 items
            (EnsureUploaded os c ctx items onUploaded onPresent w).world := by
  have hall := ensureLoop_ok_all_present m ctx onUploaded onPresent hU hP items 0 w hfirst
  have hsecond := ensureLoop_all_present m ctx2 onUploaded2 onPresent2 hP2 hok2 items 0 _ hall
  have hworld :=
    ensureLoop_all_present_world m ctx2 onUploaded2 onPresent2 hP2 hok2 items 0 _ hall
  unfold EnsureUploaded at hfirst ⊢
  refine ⟨hsecond.1, hsecond.2, ?_, ?_, hworld⟩
  · intro i hi
    rw [hsecond.2]
    exact callCount_presentTrace items 0 i (Nat.zero_le _) (by omega)
  · intro e he
    rw [hsecond.2] at he
    rcases presentTrace_calls items 0 e he with h | h <;> simp [h]

/-- The ledger is a store model. -/
theorem ledger_model : StoreModel ledgerOS ledgerClient (fun w key => key ∈ w.store) where
  head_ok_iff := by
    intro key w
    by_cases h : key ∈ w.store <;> simp [ledgerClient, h]
  head_keeps := by
    intro inp w key h
    by_cases h2 : inp.Key ∈ w.store <;> simpa [ledgerClient, h2] using h
  upload_adds := by
    intro ctx key body w h
    rcases ctx with ⟨_ | e⟩ <;> simp [ledgerClient] at h ⊢
  upload_keeps := by
    intro ctx inp w key h
    rcases ctx with ⟨_ | e⟩ <;> simp [ledgerClient, h]
  open_keeps := by
    intro path w key h
    by_cases h2 : path = "/missing" <;> simpa [ledgerOS, h2] using h
  close_keeps := by
    intro file w key h
    exact h

/-- The callback `ledgerOnUploaded` removes no key. -/
theorem ledgerOnUploaded_keeps :
    Keeps (fun (w : Ledger) key => key ∈ w.store) ledgerOnUploaded := by
  intro item w key h
  exact h

/-- The callback `ledgerOnPresent` removes no key. -/
theorem ledgerOnPresent_keeps :
    Keeps (fun (w : Ledger) key => key ∈ w.store) ledgerOnPresent := by
  intro item w key h
  exact h

/-- C6 at a concrete input, over the ledger: the first run finds `k1` and
uploads `k2`; the second run finds both, and the ledger after it differs from
the ledger after the first run by two existence queries and two calls of
`onPresent` only: still one upload and one call of `onUploaded`. -/
theorem second_run_only_onPresent_witness :
    (EnsureUploaded ledgerOS ledgerClient liveCtx [⟨"/a", "k1"⟩, ⟨"/b", "k2"⟩]
        ledgerOnUploaded ledgerOnPresent ledgerStart).err = none
    ∧ (EnsureUploaded ledgerOS ledgerClient liveCtx [⟨"/a", "k1"⟩, ⟨"/b", "k2"⟩]
        ledgerOnUploaded ledgerOnPresent ledgerStart).world
        = ⟨["k1", "k2"], ["k1", "k2"], ["/b"], [⟨"test", "k2", ⟨3⟩⟩], [⟨3⟩],
            [⟨"/b", "k2"⟩], [⟨"/a", "k1"⟩]⟩
    ∧ (∀ item w, (ledgerOnPresent item w).1 = none)
    ∧ (EnsureUploaded ledgerOS ledgerClient liveCtx [⟨"/a", "k1"⟩, ⟨"/b", "k2"⟩]
        ledgerOnUploaded ledgerOnPresent
        (EnsureUploaded ledgerOS ledgerClient liveCtx [⟨"/a", "k1"⟩, ⟨"/b", "k2"⟩]
          ledgerOnUploaded ledgerOnPresent ledgerStart).world).err = none
    ∧ (EnsureUploaded ledgerOS ledgerClient liveCtx [⟨"/a", "k1"⟩, ⟨"/b", "k2"⟩]
        ledgerOnUploaded ledgerOnPresent
        (EnsureUploaded ledgerOS ledgerClient liveCtx [⟨"/a", "k1"⟩, ⟨"/b", "k2"⟩]
          ledgerOnUploaded ledgerOnPresent ledgerStart).world).trace
        = presentTrace 0 [⟨"/a", "k1"⟩, ⟨"/b", "k2"⟩]
    ∧ (EnsureUploaded ledgerOS ledgerClient liveCtx [⟨"/a", "k1"⟩, ⟨"/b", "k2"⟩]
        ledgerOnUploaded ledgerOnPresent
        (EnsureUploaded ledgerOS ledgerClient liveCtx [⟨"/a", "k1"⟩, ⟨"/b", "k2"⟩]
          ledgerOnUploaded ledgerOnPresent ledgerStart).world).world
        = presentWorld ledgerClient liveCtx ledgerOnPresent [⟨"/a", "k1"⟩, ⟨"/b", "k2"⟩]
            (EnsureUploaded ledgerOS ledgerClient liveCtx [⟨"/a", "k1"⟩, ⟨"/b", "k2"⟩]
              ledgerOnUploaded ledgerOnPresent ledgerStart).world
    ∧ presentWorld ledgerClient liveCtx ledgerOnPresent [⟨"/a", "k1"⟩, ⟨"/b", "k2"⟩]
        (EnsureUploaded ledgerOS ledgerClient liveCtx [⟨"/a", "k1"⟩, ⟨"/b", "k2"⟩]
          ledgerOnUploaded ledgerOnPresent ledgerStart).world
        = ⟨["k1", "k2"], ["k1", "k2", "k1", "k2"], ["/b"], [⟨"test", "k2", ⟨3⟩⟩], [⟨3⟩],
            [⟨"/b", "k2"⟩], [⟨"/a", "k1"⟩, ⟨"/a", "k1"⟩, ⟨"/b", "k2"⟩]⟩ :=
  ⟨by decide, by decide, fun _ _ => rfl,
    (second_run_only_onPresent ledger_model liveCtx liveCtx ledgerOnUploaded ledgerOnPresent
      ledgerOnUploaded ledgerOnPresent ledgerOnUploaded_keeps ledgerOnPresent_keeps
      ledgerOnPresent_keeps (fun _ _ => rfl) [⟨"/a", "k1"⟩, ⟨"/b", "k2"⟩] ledgerStart
      (by decide)).1,
    (second_run_only_onPresent ledger_model liveCtx liveCtx ledgerOnUploaded ledgerOnPresent
      ledgerOnUploaded ledgerOnPresent ledgerOnUploaded_keeps ledgerOnPresent_keeps
      ledgerOnPresent_keeps (fun _ _ => rfl) [⟨"/a", "k1"⟩, ⟨"/b", "k2"⟩] ledgerStart
      (by decide)).2.1,
    (second_run_only_onPresent ledger_model liveCtx liveCtx ledgerOnUploaded ledgerOnPresent
      ledgerOnUploaded ledgerOnPresent ledgerOnUploaded_keeps ledgerOnPresent_keeps
      ledgerOnPresent_keeps (fun _ _ => rfl) [⟨"/a", "k1"⟩, ⟨"/b", "k2"⟩] ledgerStart
      (by decide)).2.2.2.2,
    by decide⟩

end Idempotence

/-! ## Cancellation -/

section Cancellation

/-- C7: the presence check does not see the context.  `haveBlob` gives the
same result for every context, and with a cancelled context, the key `k1`
present and an upload that honours the context: `haveBlob` returns
`(true, nil)`, `EnsureUploaded` calls `onPresent` and returns nil, while
`uploadBlob` returns an error that wraps the error of the context. -/
theorem haveBlob_ignores_cancelled_context :
    (∀ (σ : Type) (c : Client σ) (ctx ctx2 : Context) (item : SyncItem) (w : σ),
      haveBlob c ctx item w = haveBlob c ctx2 item w)
    ∧ cancelledCtx.Err = some (.leaf "context canceled")
    ∧ haveBlob memClient cancelledCtx ⟨"/a", "k1"⟩ ["k1"] = ((true, none), ["k1"])
    ∧ (EnsureUploaded memOS memClient cancelledCtx [⟨"/a", "k1"⟩] okCallback okCallback
        ["k1"]).err = none
    ∧ (EnsureUploaded memOS memClient cancelledCtx [⟨"/a", "k1"⟩] okCallback okCallback
        ["k1"]).trace = [⟨0, ⟨"/a", "k1"⟩, .haveBlob⟩, ⟨0, ⟨"/a", "k1"⟩, .onPresent⟩]
    ∧ uploadBlob memOS memClient cancelledCtx ⟨"/b", "k2"⟩ ["k1"]
        = (some (errorfW "upload (s3) /b: " (.leaf "context canceled")), ["k1"]) :=
  ⟨fun _ _ _ _ _ _ => rfl, rfl, by decide, by decide, by decide, by decide⟩

end Cancellation

end Gw
